import Mathlib

/-!
Verification of the XTB calculation adapter
(`pysisyphus/calculators/XTB.py`).

The file shallowly embeds the pure content of the adapter: strings are
processed as their character lists, files and directories are explicit
records of their contents, filesystem writes and subprocess invocations
are recorded as events, and Python exceptions are `Except`/`Option`
results.  Numeric file payloads (float tokens) are kept as their raw
textual tokens, since every property below concerns counts, shapes,
flags and control flow, never float arithmetic.
-/

namespace XTBV

/-! ## Python string primitives

`pySplit` models Python `str.split()` (split on runs of whitespace,
discarding empty tokens); `pyStrip` models `str.strip()`; `dedent`
models `textwrap.dedent`.  Lean's `Char.isWhitespace` covers the
whitespace characters occurring in the adapter's data (space, tab, CR,
LF), matching Python's whitespace set on those characters. -/

def splitWsCore (l : List Char) : List (List Char) :=
  (l.foldr
    (fun c acc =>
      if c.isWhitespace then [] :: acc
      else
        match acc with
        | [] => [[c]]
        | t :: ts => (c :: t) :: ts)
    []).filter (fun t => ¬ t.isEmpty)

def pySplit (s : String) : List String :=
  (splitWsCore s.data).map String.mk

def pyStrip (s : String) : String :=
  String.mk (((s.data.dropWhile Char.isWhitespace).reverse.dropWhile Char.isWhitespace).reverse)

/-- Split a character list at newline characters, keeping empty lines:
the model of Python `text.split(chr(10))` used by `textwrap.dedent`. -/
def splitNl : List Char → List (List Char)
  | [] => [[]]
  | c :: cs =>
    if c = '\n' then [] :: splitNl cs
    else
      match splitNl cs with
      | [] => [[c]]
      | t :: ts => (c :: t) :: ts

/-- Longest common prefix of two character lists (the margin-merging
step of `textwrap.dedent`). -/
def lcp : List Char → List Char → List Char
  | x :: xs, y :: ys => if x = y then x :: lcp xs ys else []
  | _, _ => []

/-- The common leading whitespace of all lines that carry content
(`textwrap.dedent`'s margin; `none` when no line has content). -/
def marginOf (lines : List (List Char)) : Option (List Char) :=
  lines.foldl
    (fun m line =>
      if (line.dropWhile Char.isWhitespace).isEmpty then m
      else
        match m with
        | none => some (line.takeWhile Char.isWhitespace)
        | some mm => some (lcp mm (line.takeWhile Char.isWhitespace)))
    none

def isPre : List Char → List Char → Bool
  | [], _ => true
  | _ :: _, [] => false
  | a :: as, b :: bs => a = b && isPre as bs

def dropPre (m line : List Char) : List Char :=
  if isPre m line then line.drop m.length else line

def joinNl (lines : List (List Char)) : List Char :=
  match lines with
  | [] => []
  | l :: ls => ls.foldl (fun acc x => acc ++ '\n' :: x) l

/-- Model of `textwrap.dedent`: remove the common leading whitespace
margin from every line that starts with it; with an empty or undefined
margin the text is unchanged (CPython only substitutes `if margin:`). -/
def dedent (s : String) : String :=
  match marginOf (splitNl s.data) with
  | none => s
  | some [] => s
  | some m => String.mk (joinNl ((splitNl s.data).map (dropPre m)))

/-- Literal substring search: the model of `re.search` with a pattern
that is a plain literal (used by `check_termination`). -/
def containsSub (needle : List Char) : List Char → Bool
  | [] => isPre needle []
  | h :: t => isPre needle (h :: t) || containsSub needle t

/-! ## parse_hessian (source lines 381-392)

`np.array(text.split()[1:], dtype=float)` drops the first
whitespace-separated token of the `hessian` file and converts the rest;
`int(hessian.size ** 0.5)` is the floor square root (exact on the sizes
in scope here), and `reshape` fails unless the element count equals the
product of the requested dimensions.  Float conversion is kept as the
raw token, since no property below inspects numeric values. -/

def chunkRows {α : Type} : Nat → Nat → List α → List (List α)
  | 0, _, _ => []
  | r + 1, c, l => l.take c :: chunkRows r c (l.drop c)

/-- `isqrtAux k n`: the largest `j ≤ k` with `j * j ≤ n` (0 when none). -/
def isqrtAux : Nat → Nat → Nat
  | 0, _ => 0
  | k + 1, n => if (k + 1) * (k + 1) ≤ n then k + 1 else isqrtAux k n

/-- `int(size ** 0.5)`: the floor integer square root.  (The Python
expression goes through a float, which is exact on the sizes in
scope.) -/
def isqrt (n : Nat) : Nat := isqrtAux n n

def npReshape {α : Type} (l : List α) (r c : Nat) : Option (List (List α)) :=
  if l.length = r * c then some (chunkRows r c l) else none

def parse_hessian_matrix (text : String) : Option (List (List String)) :=
  let hessian := (pySplit text).drop 1
  let coord_num := isqrt hessian.length
  npReshape hessian coord_num coord_num

/-! ## parse_energy (source lines 371-376)

`re.search(r"TOTAL ENERGY\s*([-\d\.]+) Eh", text)`: at each start
position, match the literal, then greedily skip whitespace, then
greedily take one or more characters from the class `-`, digit, `.`,
then the literal " Eh".  The character class and the whitespace class
are disjoint and neither contains a space, so the greedy scan without
backtracking is exactly the regex's behaviour.  The matched group is
returned as a string (the `float` conversion is not inspected by any
property below); a failed search raises in the source (`[1]` on
`None`), modelled as `Except.error`. -/

def isFloatChar (c : Char) : Bool := c = '-' || c.isDigit || c = '.'

def matchEnergyAt (cs : List Char) : Option String :=
  if isPre "TOTAL ENERGY".data cs then
    let rest := (cs.drop 12).dropWhile Char.isWhitespace
    let num := rest.takeWhile isFloatChar
    if ¬ num.isEmpty && isPre " Eh".data (rest.drop num.length) then
      some (String.mk num)
    else none
  else none

def searchEnergy : List Char → Option String
  | [] => none
  | c :: cs => (matchEnergyAt (c :: cs)).orElse (fun _ => searchEnergy cs)

def parse_energy (out_text : String) : Except String String :=
  match searchEnergy out_text.data with
  | some s => Except.ok s
  | none => Except.error "TOTAL ENERGY pattern not found"

/-- The contents of the output directory consumed by `parse_hessian`:
the fixed-name `hessian` file and the main log `xtb.out`. -/
structure HessPath where
  hessian_text : String
  out_text : String

def parse_hessian (p : HessPath) : Except String (String × List (List String)) :=
  match parse_hessian_matrix p.hessian_text with
  | none => Except.error "cannot reshape hessian"
  | some m =>
    match parse_energy p.out_text with
    | Except.error e => Except.error e
    | Except.ok en => Except.ok (en, m)

/-! ## format_xcontrol (source lines 142-155) -/

/-- Scalar values occurring in xcontrol option mappings.  The source
renders a `bool` as literal `true`/`false` and every other value via
f-string interpolation; integers render as their decimal numeral, and
strings as themselves. -/
inductive XVal : Type
  | bool : Bool → XVal
  | str : String → XVal
  | int : Int → XVal
deriving DecidableEq

def renderVal : XVal → String
  | XVal.bool b => if b then "true" else "false"
  | XVal.str s => s
  | XVal.int n => toString n

/-- `sorted(d.items(), key=lambda x: x[0])`: sort an association list by
its string key.  Python compares strings lexicographically by code
point, which is exactly Lean's linear order on `String`. -/
def keyLe {β : Type} (a b : String × β) : Prop := a.1 ≤ b.1

instance {β : Type} : DecidableRel (@keyLe β) :=
  fun a b => inferInstanceAs (Decidable (a.1 ≤ b.1))

instance {β : Type} : IsTotal (String × β) keyLe :=
  ⟨fun a b => le_total a.1 b.1⟩

instance {β : Type} : IsTrans (String × β) keyLe :=
  ⟨fun _ _ _ h1 h2 => le_trans h1 h2⟩

def sortKey {β : Type} (l : List (String × β)) : List (String × β) :=
  List.insertionSort keyLe l

/-- An xcontrol option mapping: sections, each a list of key/value
entries.  Python `dict`s have unique keys; where a property needs this
it is an explicit hypothesis. -/
abbrev XOptions : Type := List (String × List (String × XVal))

def format_xcontrol (options : XOptions) : String :=
  let inp :=
    (sortKey options).foldl
      (fun inp se =>
        (sortKey se.2).foldl
          (fun acc kv => acc ++ "    " ++ kv.1 ++ "=" ++ renderVal kv.2 ++ "\n")
          (inp ++ "$" ++ se.1 ++ "\n")
        ++ "$end\n")
      ""
  dedent (pyStrip inp)

/-! Specification-side rendering of the control file, written after the
claim's words: sections in ascending alphabetical order, each opening
with `$<name>`, each entry on its own line as `key=value` with booleans
rendered as lowercase `true`/`false` and keys in ascending alphabetical
order, each section closing with `$end`. -/

def specVal : XVal → String
  | XVal.bool b => if b then "true" else "false"
  | XVal.str s => s
  | XVal.int n => toString n

def entryStr (kv : String × XVal) : String :=
  "    " ++ kv.1 ++ "=" ++ renderVal kv.2 ++ "\n"

def specEntryStr (kv : String × XVal) : String :=
  "    " ++ kv.1 ++ "=" ++ specVal kv.2 ++ "\n"

def sJoin (l : List String) : String :=
  String.mk (l.map String.data).flatten

def specBlock (se : String × List (String × XVal)) : String :=
  "$" ++ se.1 ++ "\n" ++ sJoin ((sortKey se.2).map specEntryStr) ++ "$end\n"

/-- Remove one trailing newline character, if present. -/
def stripTrailingNl (s : String) : String :=
  match s.data.reverse with
  | '\n' :: rest => String.mk rest.reverse
  | _ => s

def specRender (options : XOptions) : String :=
  stripTrailingNl (sJoin ((sortKey options).map specBlock))

/-- Two sections are the same up to entry insertion order. -/
def EntryPerm (a b : String × List (String × XVal)) : Prop :=
  a.1 = b.1 ∧ a.2.Perm b.2

/-- Two option mappings contain the same sections and entries,
regardless of insertion order. -/
def SameOptions (o₁ o₂ : XOptions) : Prop :=
  ∃ o, o₁.Perm o ∧ List.Forall₂ EntryPerm o o₂

/-! ## The etemp/retry_etemp construction check (source lines 90-93) -/

/-- `if self.etemp is not None: assert self.retry_etemp is None`:
`true` when construction passes this check. -/
def etemp_retry_check {α : Type} (etemp retry_etemp : Option α) : Bool :=
  match etemp with
  | none => true
  | some _ => retry_etemp.isNone

/-! ## The topology lifecycle in prepare_input (source lines 173-188)

State owned by the adapter instance: the stored topology path
(`self.topo`, `None` or a string, with Python truthiness) and the usage
counter (`self.topo_used`, starting at 0).  `run_topo` is the external
topology-only invocation; its produced path is supplied to the step
function as `fresh`.  The step also reports whether a rebuild happened
and which path (if any) was copied into the working directory. -/

def pyTruthyStr : Option String → Bool
  | none => false
  | some s => ¬ s.isEmpty

def pyTruthyNat : Option Nat → Bool
  | none => false
  | some n => n ≠ 0

structure TopoState where
  topo : Option String
  topo_used : Nat
deriving DecidableEq

structure TopoStep where
  state : TopoState
  rebuilt : Bool
  copied : Option String
deriving DecidableEq

def prepare_input_topo (topo_update : Option Nat) (fresh : String) (st : TopoState) : TopoStep :=
  let doRebuild :=
    decide (st.topo_used > 0) && pyTruthyNat topo_update
      && decide (st.topo_used % topo_update.getD 0 = 0)
  let topo1 := if doRebuild then some fresh else st.topo
  if pyTruthyStr topo1 then
    { state := { topo := topo1, topo_used := st.topo_used + 1 },
      rebuilt := doRebuild, copied := topo1 }
  else
    { state := { topo := topo1, topo_used := st.topo_used },
      rebuilt := doRebuild, copied := none }

/-- The adapter state after `n` input preparations, where `fresh k` is
the topology path produced if a rebuild happens on the `k`-th call
(1-indexed). -/
def topoIter (topo_update : Option Nat) (fresh : Nat → String) (init : TopoState) : Nat → TopoState
  | 0 => init
  | n + 1 => (prepare_input_topo topo_update (fresh (n + 1)) (topoIter topo_update fresh init n)).state

/-- The full record of the `k`-th input-preparation call (1-indexed). -/
def topoCall (topo_update : Option Nat) (fresh : Nat → String) (init : TopoState) (k : Nat) : TopoStep :=
  prepare_input_topo topo_update (fresh k) (topoIter topo_update fresh init (k - 1))

/-! ## run_md (source lines 291-335)

Only lengths matter for the shape contract: `coords` is a flat array of
`coordsLen` floats, `velocities` (when given) of `velLen` floats.
`reshape(-1, 3)` fails unless the length is divisible by 3; the
`assert` compares the two `(n, 3)` shapes.  Filesystem writes and the
external invocation are recorded as events, in source order; a raised
exception stops the event trace and is recorded in `error`. -/

inductive MDEvent : Type
  | wroteRestart
  | wroteXcontrol
  | invoked
deriving DecidableEq

structure MDRun where
  events : List MDEvent
  error : Option String
deriving DecidableEq

def run_md (coordsLen velLen : Nat) (velocitiesGiven : Bool) : MDRun :=
  if velocitiesGiven then
    if coordsLen % 3 ≠ 0 then
      { events := [], error := some "cannot reshape coordinates" }
    else if velLen % 3 ≠ 0 then
      { events := [], error := some "cannot reshape velocities" }
    else if coordsLen / 3 ≠ velLen / 3 then
      { events := [], error := some "Shape of coordinates and velocities does not match!" }
    else
      { events := [MDEvent.wroteRestart, MDEvent.wroteXcontrol, MDEvent.invoked],
        error := none }
  else
    { events := [MDEvent.wroteXcontrol, MDEvent.invoked], error := none }

/-! ## prepare_add_args (source lines 190-209) and uhf (line 104)

Configuration fields as stored by `__init__`.  Numeric values are ℚ
(`etemp`, `acc`) or ℤ (`charge`, `iterations`, the gfn level,
`mult`); their decimal rendering is abstracted by `toString`, which,
like Python's, never contains whitespace, so f-string `.split()` of a
flag plus a numeral yields exactly the two tokens modelled here.  The
solvent names are arbitrary user strings, so their f-strings are split
faithfully with `pySplit`.  Python truthiness: a numeric option is
falsy when `None` or zero, a string when empty. -/

inductive GfnVal : Type
  | lvl : Int → GfnVal
  | ff : GfnVal
deriving DecidableEq

structure AddArgsConf where
  charge : Int
  mult : Int
  acc : ℚ
  iterations : Int
  etemp : Option ℚ
  gbsa : String
  alpb : String
  gfn : GfnVal

def etempTruthy : Option ℚ → Bool
  | none => false
  | some q => q ≠ 0

def ratStr (q : ℚ) : String := toString q

def prepare_add_args (c : AddArgsConf) : List String :=
  let add_args :=
    ["--input", "xcontrol", "--chrg", toString c.charge, "--uhf", toString (c.mult - 1),
     "--acc", ratStr c.acc, "--iterations", toString c.iterations]
  let add_args :=
    if etempTruthy c.etemp then add_args ++ ["--etemp", ratStr (c.etemp.getD 0)]
    else add_args
  let add_args :=
    if ¬ c.gbsa.isEmpty then add_args ++ ("--gbsa" :: pySplit c.gbsa)
    else if ¬ c.alpb.isEmpty then add_args ++ ("--alpb" :: pySplit c.alpb)
    else add_args
  add_args ++ (match c.gfn with
    | GfnVal.ff => ["--gfnff"]
    | GfnVal.lvl n => ["--gfn", toString n])

/-! ## parse_opt (source lines 356-369)

The output directory record: whether `xtbopt.xyz` exists, its contents
(loaded by the external `geom_loader`, kept abstract as the raw text),
the optimization log contents, and the main log for `parse_energy`.
The returned messages are the `self.log(...)` calls made. -/

structure OptPath where
  xtbopt_exists : Bool
  xtbopt_content : String
  xtbopt_log_content : String
  out_text : String

structure OptGeom where
  geom : String
  energy : String
deriving DecidableEq

structure OptResultM where
  opt_geom : OptGeom
  opt_log : Option String
deriving DecidableEq

/-- `%03d` formatting of the calculation number. -/
def pad3 (n : Nat) : String :=
  let s := toString n
  if s.length < 3 then String.mk (List.replicate (3 - s.length) '0') ++ s else s

def parse_opt (calc_number : Nat) (p : OptPath) (keep_log : Bool) :
    Except String (Option OptResultM) × List String :=
  if ¬ p.xtbopt_exists then
    (Except.ok none, [pad3 calc_number ++ " failed"])
  else
    match parse_energy p.out_text with
    | Except.error e => (Except.error e, [])
    | Except.ok en =>
      (Except.ok (some
        { opt_geom := { geom := p.xtbopt_content, energy := en },
          opt_log := if keep_log then some p.xtbopt_log_content else none }),
       [])

/-! ## check_termination (source lines 408-413)

The regex is the literal "finished run on".  The `@file_or_str(".out")`
decorator is defined in `pysisyphus.helpers_pure`, outside this
module.  Modelled from the spec: it lets the operation "accept either a
file path or raw text content"; a path argument is read through the
ambient filesystem `fs` and the wrapped operation is applied to the
contents, a raw text argument is passed through unchanged. -/

inductive TextSource : Type
  | raw : String → TextSource
  | path : String → TextSource

def check_termination_text (text : String) : Bool :=
  containsSub "finished run on".data text.data

def check_termination (fs : String → String) : TextSource → Bool
  | TextSource.raw t => check_termination_text t
  | TextSource.path p => check_termination_text (fs p)

/-! ## get_energy / run_calculation (source lines 220-223 and 251-253)

`get_forces` runs the external program and parses its gradient file
with `parse_turbo_gradient` (defined outside this module).  Modelled
from the spec: the energy/gradient parser contract yields "energy and
force array", i.e. a result mapping that contains a "forces" entry;
`get_energy` is stated over an arbitrary such mapping.  `del d[k]` on a
Python dict removes the (unique) entry with key `k` and raises
`KeyError` when the key is absent. -/

def dictGet {α : Type} (d : List (String × α)) (k : String) : Option α :=
  (d.find? (fun p => p.1 = k)).map Prod.snd

def pyDel {α : Type} (d : List (String × α)) (k : String) : Except String (List (String × α)) :=
  if d.any (fun p => p.1 = k) then
    Except.ok (d.filter (fun p => ¬ p.1 = k))
  else
    Except.error "KeyError"

def get_energy {α : Type} (forces_results : List (String × α)) :
    Except String (List (String × α)) :=
  pyDel forces_results "forces"

def run_calculation {α : Type} (forces_results : List (String × α)) :
    Except String (List (String × α)) :=
  get_energy forces_results

/-! ## Concrete inputs and claim-side decompositions used in the
statements below -/

/-- A `hessian` file containing exactly `n` whitespace-separated float
tokens. -/
def hessTokens (n : Nat) : String :=
  String.intercalate " " (List.replicate n "0.0")

/-- A main log containing the energy line expected by `parse_energy`. -/
def outOkText : String := "TOTAL ENERGY -5.0 Eh"

/-- An output directory with no optimized-geometry file. -/
def missingOptPath : OptPath :=
  { xtbopt_exists := false, xtbopt_content := "", xtbopt_log_content := "", out_text := "" }

/-- A configuration with a GBSA solvent and GFN2. -/
def confGbsa : AddArgsConf :=
  { charge := 0, mult := 1, acc := 1, iterations := 250, etemp := none, gbsa := "water", alpb := "", gfn := GfnVal.lvl 2 }

/-- A plain configuration with no solvent. -/
def confPlain : AddArgsConf :=
  { charge := 0, mult := 1, acc := 1, iterations := 250, etemp := none, gbsa := "", alpb := "", gfn := GfnVal.lvl 2 }

instance {ε α : Type} [DecidableEq ε] [DecidableEq α] : DecidableEq (Except ε α) :=
  fun x y =>
    match x, y with
    | Except.ok a, Except.ok b =>
      if h : a = b then isTrue (by rw [h]) else isFalse (by intro hh; cases hh; exact h rfl)
    | Except.error a, Except.error b =>
      if h : a = b then isTrue (by rw [h]) else isFalse (by intro hh; cases hh; exact h rfl)
    | Except.ok _, Except.error _ => isFalse (by intro hh; cases hh)
    | Except.error _, Except.ok _ => isFalse (by intro hh; cases hh)

/-- The unconditional first ten argument tokens of `prepare_add_args`:
control-file reference, total charge, unpaired-electron count (spin
multiplicity minus one), accuracy value, iteration cap. -/
def baseArgsOf (c : AddArgsConf) : List String :=
  ["--input", "xcontrol", "--chrg", toString c.charge, "--uhf", toString (c.mult - 1),
   "--acc", ratStr c.acc, "--iterations", toString c.iterations]

def etempArgsOf (c : AddArgsConf) : List String :=
  if etempTruthy c.etemp then ["--etemp", ratStr (c.etemp.getD 0)] else []

/-- The solvent tokens: the GBSA flag when a GBSA solvent is set
(taking precedence over ALPB), the ALPB flag only when GBSA is unset. -/
def solventArgsOf (c : AddArgsConf) : List String :=
  if ¬ c.gbsa.isEmpty then "--gbsa" :: pySplit c.gbsa
  else if ¬ c.alpb.isEmpty then "--alpb" :: pySplit c.alpb
  else []

/-- The Hamiltonian tokens: the dedicated force-field flag for level
"ff", else the leveled flag with the configured level. -/
def gfnArgsOf (c : AddArgsConf) : List String :=
  match c.gfn with
  | GfnVal.ff => ["--gfnff"]
  | GfnVal.lvl n => ["--gfn", toString n]

/-- The adapter's topology state right after construction: counter 0,
stored path as configured. -/
def topoStart (p : String) : TopoState :=
  { topo := some p, topo_used := 0 }

/-- An option mapping, and the same mapping with sections and entries
inserted in a different order. -/
def o1ex : XOptions := [("b", [("y", XVal.bool false), ("x", XVal.str "1")]), ("a", [])]

def o2ex : XOptions := [("a", []), ("b", [("x", XVal.str "1"), ("y", XVal.bool false)])]

def oMidEx : XOptions := [("a", []), ("b", [("y", XVal.bool false), ("x", XVal.str "1")])]

/-- The strict key order used to show sorted association lists with
distinct keys are unique. -/
def keyLt {β : Type} (a b : String × β) : Prop := a.1 < b.1

instance {β : Type} : IsAntisymm (String × β) keyLt :=
  ⟨fun _ _ h1 h2 => absurd h1 (lt_asymm h2)⟩

/-! ## Helper lemmas -/

theorem isPre_iff (n : List Char) : ∀ h : List Char, isPre n h = true ↔ ∃ t, h = n ++ t := by
  induction n with
  | nil => intro h; simp [isPre]
  | cons a as ih =>
    intro h
    cases h with
    | nil => simp [isPre]
    | cons b bs =>
      simp only [isPre, Bool.and_eq_true, decide_eq_true_eq, ih, List.cons_append,
        List.cons.injEq]
      constructor
      · rintro ⟨rfl, t, rfl⟩; exact ⟨t, rfl, rfl⟩
      · rintro ⟨t, rfl, rfl⟩; exact ⟨rfl, t, rfl⟩

theorem containsSub_iff (n : List Char) : ∀ h : List Char, containsSub n h = true ↔ ∃ p t, h = p ++ n ++ t := by
  intro h
  induction h with
  | nil =>
    simp only [containsSub, isPre_iff]
    constructor
    · rintro ⟨t, ht⟩
      exact ⟨[], t, by simpa using ht⟩
    · rintro ⟨p, t, ht⟩
      exact ⟨t, by rw [ht]; cases p <;> simp_all⟩
  | cons c cs ih =>
    simp only [containsSub, Bool.or_eq_true, isPre_iff, ih]
    constructor
    · rintro (⟨t, ht⟩ | ⟨p, t, ht⟩)
      · exact ⟨[], t, by simpa using ht⟩
      · exact ⟨c :: p, t, by simp [ht]⟩
    · rintro ⟨p, t, ht⟩
      cases p with
      | nil => exact Or.inl ⟨t, by simpa using ht⟩
      | cons x xs =>
        right
        refine ⟨xs, t, ?_⟩
        simpa using congrArg List.tail ht

theorem find?_filter_forces {α : Type} (k : String) (hk : ¬ k = "forces") :
    ∀ d : List (String × α),
      List.find? (fun p => p.1 = k) (d.filter (fun p => ¬ p.1 = "forces"))
        = List.find? (fun p => p.1 = k) d := by
  intro d
  induction d with
  | nil => rfl
  | cons p d ih =>
    by_cases hp : p.1 = "forces"
    · have hpk : ¬ p.1 = k := fun h => hk (h ▸ hp)
      rw [@List.filter_cons_of_neg _ (fun q => decide ¬ q.1 = "forces") p d (by simpa using hp),
        @List.find?_cons_of_neg _ (fun q => decide (q.1 = k)) p d (by simpa using hpk), ih]
    · rw [@List.filter_cons_of_pos _ (fun q => decide ¬ q.1 = "forces") p d (by simpa using hp)]
      by_cases hpk : p.1 = k
      · rw [@List.find?_cons_of_pos _ (fun q => decide (q.1 = k)) p _ (by simpa using hpk),
          @List.find?_cons_of_pos _ (fun q => decide (q.1 = k)) p d (by simpa using hpk)]
      · rw [@List.find?_cons_of_neg _ (fun q => decide (q.1 = k)) p _ (by simpa using hpk),
          @List.find?_cons_of_neg _ (fun q => decide (q.1 = k)) p d (by simpa using hpk), ih]

theorem dictGet_filter_ne {α : Type} (d : List (String × α)) (k : String) (hk : ¬ k = "forces") :
    dictGet (d.filter (fun p => ¬ p.1 = "forces")) k = dictGet d k := by
  simp only [dictGet, find?_filter_forces k hk d]

theorem chunkRows_length {α : Type} (c : Nat) : ∀ (r : Nat) (l : List α), (chunkRows r c l).length = r := by
  intro r
  induction r with
  | zero => intro l; rfl
  | succ r ih => intro l; simp [chunkRows, ih]

theorem chunkRows_row_length {α : Type} (c : Nat) :
    ∀ (r : Nat) (l : List α), l.length = r * c → ∀ row ∈ chunkRows r c l, row.length = c := by
  intro r
  induction r with
  | zero => intro l _ row hrow; simp [chunkRows] at hrow
  | succ r ih =>
    intro l hl row hrow
    rcases List.mem_cons.mp hrow with h | h
    · subst h
      simp only [List.length_take, hl]
      have : c ≤ (r + 1) * c := by nlinarith
      omega
    · refine ih (l.drop c) ?_ row h
      simp only [List.length_drop, hl, Nat.succ_mul]
      omega

theorem prepare_add_args_decomp (c : AddArgsConf) :
    prepare_add_args c = baseArgsOf c ++ etempArgsOf c ++ solventArgsOf c ++ gfnArgsOf c := by
  simp only [prepare_add_args, baseArgsOf, etempArgsOf, solventArgsOf, gfnArgsOf]
  split_ifs <;> simp [List.append_assoc]

/-! ## Claim theorems -/

/-- Claim C4: for every configuration in which both the electronic
temperature and the retry electronic temperature are set to non-null
values, the construction-time check fails; construction passes this
check when at most one of them is set. -/
theorem C4_etemp_retry_mutually_exclusive {α : Type} (etemp retry_etemp : Option α) :
    etemp_retry_check etemp retry_etemp = false ↔
      (etemp.isSome = true ∧ retry_etemp.isSome = true) := by
  cases etemp <;> cases retry_etemp <;> simp [etemp_retry_check]

/-- Claim C5: for every output directory in which xtbopt.xyz is absent,
parse_opt logs a failure numbered with the calculation's zero-padded
sequence number and returns a null result, raising no exception. -/
theorem C5_parse_opt_missing_file (calc_number : Nat) (p : OptPath) (keep_log : Bool)
    (h : p.xtbopt_exists = false) :
    parse_opt calc_number p keep_log = (Except.ok none, [pad3 calc_number ++ " failed"]) := by
  simp [parse_opt, h]

theorem C5_witness :
    parse_opt 7 missingOptPath false = (Except.ok none, [pad3 7 ++ " failed"]) :=
  C5_parse_opt_missing_file 7 missingOptPath false rfl

/-- Claim C8: the termination check returns true exactly when the
phrase "finished run on" occurs somewhere in the text, and gives the
same answer for a file path as for the raw text it contains. -/
theorem C8_check_termination (fs : String → String) :
    (∀ t : String, check_termination fs (TextSource.raw t) = true ↔
      ∃ p q, t.data = p ++ "finished run on".data ++ q)
    ∧ (∀ p : String,
        check_termination fs (TextSource.path p) = check_termination fs (TextSource.raw (fs p))) := by
  constructor
  · intro t
    simpa [check_termination, check_termination_text] using
      containsSub_iff "finished run on".data t.data
  · intro p; rfl

/-- Claim C9: get_energy returns exactly the forces result with the
"forces" entry removed, leaving every other entry unchanged, and
run_calculation delegates to get_energy. -/
theorem C9_get_energy_refines_forces {α : Type} (d : List (String × α))
    (h : "forces" ∈ d.map Prod.fst) :
    run_calculation d = get_energy d
    ∧ get_energy d = Except.ok (d.filter (fun p => ¬ p.1 = "forces"))
    ∧ (∀ k, ¬ k = "forces" →
        dictGet (d.filter (fun p => ¬ p.1 = "forces")) k = dictGet d k)
    ∧ "forces" ∉ (d.filter (fun p => ¬ p.1 = "forces")).map Prod.fst := by
  refine ⟨rfl, ?_, fun k hk => dictGet_filter_ne d k hk, ?_⟩
  · have : d.any (fun p => p.1 = "forces") = true := by
      rcases List.mem_map.mp h with ⟨p, hp, hfst⟩
      exact List.any_eq_true.mpr ⟨p, hp, by simp [hfst]⟩
    simp [get_energy, pyDel, this]
  · intro hmem
    rcases List.mem_map.mp hmem with ⟨p, hp, hfst⟩
    rcases List.mem_filter.mp hp with ⟨-, hcond⟩
    rw [decide_eq_true_eq] at hcond
    exact hcond hfst

theorem C9_witness :
    run_calculation [("energy", 1), ("forces", 2)] = get_energy [("energy", 1), ("forces", 2)]
    ∧ get_energy [("energy", 1), ("forces", 2)]
        = Except.ok ([("energy", 1), ("forces", 2)].filter (fun p => ¬ p.1 = "forces"))
    ∧ (∀ k, ¬ k = "forces" →
        dictGet ([("energy", 1), ("forces", 2)].filter (fun p => ¬ p.1 = "forces")) k
          = dictGet [("energy", 1), ("forces", 2)] k)
    ∧ "forces" ∉ ([("energy", 1), ("forces", 2)].filter (fun p => ¬ p.1 = "forces")).map Prod.fst :=
  C9_get_energy_refines_forces [("energy", 1), ("forces", 2)] (by simp)

/-- Claim C6: an MD request with velocities whose per-atom shape
differs from the coordinates fails before the external process is
invoked; with matching shapes the restart file is written and the
process is invoked. -/
theorem C6_run_md_shape_check (coordsLen velLen : Nat) :
    (velLen ≠ coordsLen →
      (run_md coordsLen velLen true).error.isSome = true
      ∧ MDEvent.invoked ∉ (run_md coordsLen velLen true).events)
    ∧ (coordsLen % 3 = 0 → velLen = coordsLen →
      (run_md coordsLen velLen true).error = none
      ∧ MDEvent.wroteRestart ∈ (run_md coordsLen velLen true).events
      ∧ MDEvent.invoked ∈ (run_md coordsLen velLen true).events) := by
  constructor
  · intro hne
    simp only [run_md, if_true]
    split_ifs with h1 h2 h3
    · simp
    · simp
    · simp
    · exfalso; omega
  · intro h3 heq
    subst heq
    simp [run_md, h3]

theorem C6_witness :
    ((run_md 6 9 true).error.isSome = true
      ∧ MDEvent.invoked ∉ (run_md 6 9 true).events)
    ∧ ((run_md 6 6 true).error = none
      ∧ MDEvent.wroteRestart ∈ (run_md 6 6 true).events
      ∧ MDEvent.invoked ∈ (run_md 6 6 true).events) :=
  ⟨(C6_run_md_shape_check 6 9).1 (by decide),
   (C6_run_md_shape_check 6 6).2 (by decide) rfl⟩

/-- Claim C7: the extra-argument list always starts with the
control-file reference, charge, unpaired-electron count (multiplicity
minus one), accuracy and iteration cap; the GBSA flag is emitted and
takes precedence over ALPB when both are set (ALPB only when GBSA is
unset); and the Hamiltonian flag is the dedicated force-field flag for
level "ff", else the leveled flag. -/
theorem C7_prepare_add_args (c : AddArgsConf) :
    (prepare_add_args c).take 10 = baseArgsOf c
    ∧ (¬ c.gbsa.isEmpty →
        "--gbsa" ∈ prepare_add_args c
        ∧ ∀ x, prepare_add_args { c with alpb := x } = prepare_add_args c)
    ∧ (c.gbsa.isEmpty → ¬ c.alpb.isEmpty → "--alpb" ∈ prepare_add_args c)
    ∧ (c.gfn = GfnVal.ff → ∃ pre, prepare_add_args c = pre ++ ["--gfnff"])
    ∧ (∀ n, c.gfn = GfnVal.lvl n → ∃ pre, prepare_add_args c = pre ++ ["--gfn", toString n]) := by
  refine ⟨?_, fun hg => ⟨?_, fun x => ?_⟩, fun hg ha => ?_, fun hff => ?_, fun n hn => ?_⟩
  · rw [prepare_add_args_decomp]
    have hlen : (baseArgsOf c).length = 10 := rfl
    rw [List.append_assoc, List.append_assoc, ← hlen, List.take_left]
  · rw [prepare_add_args_decomp]
    simp [solventArgsOf, hg]
  · rw [prepare_add_args_decomp, prepare_add_args_decomp]
    simp [baseArgsOf, etempArgsOf, solventArgsOf, gfnArgsOf, hg]
  · rw [prepare_add_args_decomp]
    simp [solventArgsOf, hg, ha]
  · rw [prepare_add_args_decomp]
    refine ⟨baseArgsOf c ++ etempArgsOf c ++ solventArgsOf c, ?_⟩
    simp [gfnArgsOf, hff, List.append_assoc]
  · rw [prepare_add_args_decomp]
    refine ⟨baseArgsOf c ++ etempArgsOf c ++ solventArgsOf c, ?_⟩
    simp [gfnArgsOf, hn, List.append_assoc]

theorem C7_witness :
    (prepare_add_args confGbsa).take 10 = baseArgsOf confGbsa
    ∧ "--gbsa" ∈ prepare_add_args confGbsa
    ∧ ∃ pre, prepare_add_args confGbsa = pre ++ ["--gfn", toString (2 : Int)] :=
  ⟨(C7_prepare_add_args confGbsa).1,
   ((C7_prepare_add_args confGbsa).2.1 (by decide)).1,
   (C7_prepare_add_args confGbsa).2.2.2.2 2 rfl⟩

/-- Claim C10: configuring the electronic temperature as 0 yields
exactly the argument list of an unset electronic temperature; the flag
is appended, right after the ten base tokens, only for nonzero
values. -/
theorem C10_etemp_zero (c : AddArgsConf) :
    prepare_add_args { c with etemp := some 0 } = prepare_add_args { c with etemp := none }
    ∧ (∀ q : ℚ, q ≠ 0 →
        prepare_add_args { c with etemp := some q }
          = baseArgsOf c ++ ["--etemp", ratStr q] ++ solventArgsOf c ++ gfnArgsOf c
        ∧ prepare_add_args { c with etemp := none }
          = baseArgsOf c ++ solventArgsOf c ++ gfnArgsOf c) := by
  constructor
  · rw [prepare_add_args_decomp, prepare_add_args_decomp]
    simp [baseArgsOf, etempArgsOf, etempTruthy, solventArgsOf, gfnArgsOf]
  · intro q hq
    constructor
    · rw [prepare_add_args_decomp]
      simp [baseArgsOf, etempArgsOf, etempTruthy, hq, solventArgsOf, gfnArgsOf]
    · rw [prepare_add_args_decomp]
      simp [baseArgsOf, etempArgsOf, etempTruthy, solventArgsOf, gfnArgsOf]

theorem C10_witness :
    prepare_add_args { confPlain with etemp := some 0 }
      = prepare_add_args { confPlain with etemp := none }
    ∧ prepare_add_args { confPlain with etemp := some 300 }
      = baseArgsOf confPlain ++ ["--etemp", ratStr 300] ++ solventArgsOf confPlain
        ++ gfnArgsOf confPlain :=
  ⟨(C10_etemp_zero confPlain).1,
   ((C10_etemp_zero confPlain).2 300 (by norm_num)).1⟩

theorem isqrtAux_sq_le : ∀ k n : Nat, isqrtAux k n * isqrtAux k n ≤ n := by
  intro k
  induction k with
  | zero => intro n; simp [isqrtAux]
  | succ k ih =>
    intro n
    simp only [isqrtAux]
    split_ifs with h
    · exact h
    · exact ih n

theorem le_isqrtAux : ∀ k n j : Nat, j ≤ k → j * j ≤ n → j ≤ isqrtAux k n := by
  intro k
  induction k with
  | zero => intro n j hj _; simpa [isqrtAux] using hj
  | succ k ih =>
    intro n j hj hsq
    simp only [isqrtAux]
    split_ifs with h
    · exact hj
    · have hjk : j ≤ k := by
        rcases Nat.eq_or_lt_of_le hj with h' | h'
        · exact absurd (h' ▸ hsq) h
        · exact Nat.lt_succ_iff.mp h'
      exact ih n j hjk hsq

theorem le_isqrt (n j : Nat) (h : j * j ≤ n) : j ≤ isqrt n := by
  have hjn : j ≤ n := by
    cases j with
    | zero => exact Nat.zero_le n
    | succ i => exact le_trans (by nlinarith) h
  exact le_isqrtAux n n j hjn h

theorem nat_le_of_sq_le_sq (a b : Nat) (h : a * a ≤ b * b) : a ≤ b := by
  by_contra hlt
  push_neg at hlt
  nlinarith

theorem isqrt_square_iff (m : Nat) : (∃ k, k * k = m) ↔ isqrt m * isqrt m = m := by
  constructor
  · rintro ⟨k, rfl⟩
    have h1 : k ≤ isqrt (k * k) := le_isqrt (k * k) k le_rfl
    have h2 : isqrt (k * k) ≤ k := nat_le_of_sq_le_sq _ _ (isqrtAux_sq_le (k * k) (k * k))
    rw [le_antisymm h2 h1]
  · intro h
    exact ⟨isqrt m, h⟩

/-- Claim C1 (amended): the Hessian parser splits the file on
whitespace, drops the first token (the file's format header), and
reshapes the remaining tokens to a square matrix of side the integer
square root of their count, failing when that count is not a perfect
square; a file of a header token followed by 36 floats parses to a 6x6
matrix, while files of exactly 36 or exactly 35 floats both fail with
the non-perfect-square reshape error. -/
theorem C1_parse_hessian (text : String) :
    ((parse_hessian_matrix text).isSome = true ↔
      ∃ k, k * k = ((pySplit text).drop 1).length)
    ∧ (∀ m, parse_hessian_matrix text = some m →
        m.length = isqrt ((pySplit text).drop 1).length
        ∧ ∀ row ∈ m, row.length = isqrt ((pySplit text).drop 1).length)
    ∧ parse_hessian { hessian_text := "$hessian " ++ hessTokens 36, out_text := outOkText }
        = Except.ok ("-5.0", List.replicate 6 (List.replicate 6 "0.0"))
    ∧ parse_hessian { hessian_text := hessTokens 36, out_text := outOkText }
        = Except.error "cannot reshape hessian"
    ∧ parse_hessian { hessian_text := hessTokens 35, out_text := outOkText }
        = Except.error "cannot reshape hessian" := by
  refine ⟨?_, ?_, by decide, by decide, by decide⟩
  · rw [isqrt_square_iff]
    simp only [parse_hessian_matrix, npReshape]
    split_ifs with h
    · simpa using h.symm
    · simp only [Option.isSome_none, Bool.false_eq_true, false_iff]
      omega
  · intro m hm
    simp only [parse_hessian_matrix, npReshape] at hm
    split_ifs at hm with h
    cases hm
    exact ⟨chunkRows_length _ _ _, chunkRows_row_length _ _ _ h⟩

theorem C1_witness :
    (List.replicate 6 (List.replicate 6 "0.0")).length
      = isqrt ((pySplit ("$hessian " ++ hessTokens 36)).drop 1).length
    ∧ ∀ row ∈ List.replicate 6 (List.replicate 6 "0.0"),
        row.length = isqrt ((pySplit ("$hessian " ++ hessTokens 36)).drop 1).length :=
  (C1_parse_hessian ("$hessian " ++ hessTokens 36)).2.1
    (List.replicate 6 (List.replicate 6 "0.0")) (by decide)

/-- Claim C1 as stated is false: a hessian file containing exactly 36
whitespace-separated floats does not parse to a 6x6 matrix; the parser
drops the first token and fails on the remaining 35. -/
theorem C1_counterexample :
    (pySplit (hessTokens 36)).length = 36
    ∧ (pySplit (hessTokens 36)).all (fun t => t = "0.0") = true
    ∧ parse_hessian { hessian_text := hessTokens 36, out_text := outOkText }
        = Except.error "cannot reshape hessian" := by
  refine ⟨by decide, by decide, by decide⟩

theorem prepare_input_topo_step (topo_update : Option Nat) (fresh : String) (st : TopoState)
    (hf : ¬ fresh.isEmpty) (hst : pyTruthyStr st.topo = true) :
    (prepare_input_topo topo_update fresh st).state.topo_used = st.topo_used + 1
    ∧ pyTruthyStr (prepare_input_topo topo_update fresh st).state.topo = true
    ∧ (prepare_input_topo topo_update fresh st).copied
        = (prepare_input_topo topo_update fresh st).state.topo
    ∧ (prepare_input_topo topo_update fresh st).rebuilt
        = (decide (st.topo_used > 0) && pyTruthyNat topo_update
            && decide (st.topo_used % topo_update.getD 0 = 0))
    ∧ ((prepare_input_topo topo_update fresh st).rebuilt = true →
        (prepare_input_topo topo_update fresh st).state.topo = some fresh) := by
  by_cases hdb : (decide (st.topo_used > 0) && pyTruthyNat topo_update
      && decide (st.topo_used % topo_update.getD 0 = 0)) = true
  · simp [prepare_input_topo, hdb, pyTruthyStr, hf]
  · rw [Bool.not_eq_true] at hdb
    simp [prepare_input_topo, hdb, hst]

theorem topoIter_inv (fresh : Nat → String) (p : String) (hp : ¬ p.isEmpty)
    (hf : ∀ k, ¬ (fresh k).isEmpty) :
    ∀ n, (topoIter (some 5) fresh (topoStart p) n).topo_used = n
      ∧ pyTruthyStr (topoIter (some 5) fresh (topoStart p) n).topo = true := by
  intro n
  induction n with
  | zero => exact ⟨rfl, by simpa [topoIter, topoStart, pyTruthyStr] using hp⟩
  | succ n ih =>
    obtain ⟨h1, h2⟩ := ih
    have step := prepare_input_topo_step (some 5) (fresh (n + 1)) _ (hf (n + 1)) h2
    constructor
    · show (prepare_input_topo (some 5) (fresh (n + 1))
        (topoIter (some 5) fresh (topoStart p) n)).state.topo_used = n + 1
      rw [step.1, h1]
    · exact step.2.1

/-- Claim C2 (amended): with the usage counter starting at 0 and
refresh interval 5, the topology is rebuilt exactly on those
input-preparation invocations whose pre-increment counter value is a
nonzero multiple of 5 — the 6th, 11th, 16th, ... invocation — the
rebuild check happening before the increment so that the freshly
rebuilt topology path is the one copied in that same pass, and the
counter increases by exactly 1 on every invocation where any topology
path is set. -/
theorem C2_topology_refresh (p : String) (fresh : Nat → String)
    (hp : ¬ p.isEmpty) (hf : ∀ k, ¬ (fresh k).isEmpty) :
    (∀ n, (topoIter (some 5) fresh (topoStart p) n).topo_used = n)
    ∧ (∀ k, (topoCall (some 5) fresh (topoStart p) k).rebuilt = true ↔
        ((k - 1) % 5 = 0 ∧ k - 1 ≠ 0))
    ∧ (∀ k, (topoCall (some 5) fresh (topoStart p) k).rebuilt = true →
        (topoCall (some 5) fresh (topoStart p) k).copied = some (fresh k))
    ∧ (∀ n, (topoCall (some 5) fresh (topoStart p) (n + 1)).state.topo_used
        = (topoIter (some 5) fresh (topoStart p) n).topo_used + 1) := by
  have inv := topoIter_inv fresh p hp hf
  refine ⟨fun n => (inv n).1, fun k => ?_, fun k hreb => ?_, fun n => ?_⟩
  · have step := prepare_input_topo_step (some 5) (fresh k) _ (hf k) (inv (k - 1)).2
    rw [topoCall, step.2.2.2.1, (inv (k - 1)).1]
    simp only [pyTruthyNat, Option.getD_some, Bool.and_eq_true, decide_eq_true_eq]
    omega
  · have step := prepare_input_topo_step (some 5) (fresh k) _ (hf k) (inv (k - 1)).2
    rw [topoCall] at hreb ⊢
    rw [step.2.2.1, step.2.2.2.2 hreb]
  · have step := prepare_input_topo_step (some 5) (fresh (n + 1)) _ (hf (n + 1)) (inv n).2
    rw [topoCall]
    simpa using step.1

theorem C2_witness :
    (topoIter (some 5) (fun _ => "new_topo") (topoStart "gfnff_topo") 3).topo_used = 3
    ∧ ((topoCall (some 5) (fun _ => "new_topo") (topoStart "gfnff_topo") 6).rebuilt = true ↔
        ((6 - 1) % 5 = 0 ∧ 6 - 1 ≠ 0)) :=
  ⟨(C2_topology_refresh "gfnff_topo" (fun _ => "new_topo") (by decide) (fun _ => of_decide_eq_true rfl)).1 3,
   (C2_topology_refresh "gfnff_topo" (fun _ => "new_topo") (by decide) (fun _ => of_decide_eq_true rfl)).2.1 6⟩

/-- Claim C2 as stated is false: with the counter starting at 0,
checked before the increment, the first rebuild happens on the 6th
invocation, not the 5th. -/
theorem C2_counterexample :
    (topoCall (some 5) (fun _ => "new_topo") (topoStart "gfnff_topo") 5).rebuilt = false
    ∧ (topoCall (some 5) (fun _ => "new_topo") (topoStart "gfnff_topo") 6).rebuilt = true :=
  ⟨by decide, by decide⟩

/-! ## Control-file rendering (C3) -/

theorem renderVal_eq_specVal (v : XVal) : renderVal v = specVal v := by
  cases v <;> rfl

theorem sJoin_data (l : List String) : (sJoin l).data = (l.map String.data).flatten := rfl

theorem sJoin_cons (s : String) (l : List String) : sJoin (s :: l) = s ++ sJoin l := by
  apply String.ext
  simp [sJoin_data, String.data_append]

theorem inner_fold_eq (es : List (String × XVal)) (s : String) :
    es.foldl (fun acc kv => acc ++ "    " ++ kv.1 ++ "=" ++ renderVal kv.2 ++ "\n") s
      = s ++ sJoin (es.map entryStr) := by
  induction es generalizing s with
  | nil =>
    apply String.ext
    simp [sJoin_data, String.data_append]
  | cons kv es ih =>
    rw [List.foldl_cons, ih]
    apply String.ext
    simp [sJoin_data, String.data_append, entryStr, List.append_assoc]

theorem specBlock_eq (se : String × List (String × XVal)) :
    specBlock se = "$" ++ se.1 ++ "\n" ++ sJoin ((sortKey se.2).map entryStr) ++ "$end\n" := by
  unfold specBlock
  have h : (sortKey se.2).map specEntryStr = (sortKey se.2).map entryStr := by
    apply List.map_congr_left
    intro kv _
    simp [entryStr, specEntryStr, renderVal_eq_specVal]
  rw [h]

theorem outer_fold_eq (os : List (String × List (String × XVal))) (s : String) :
    os.foldl
      (fun inp se =>
        (sortKey se.2).foldl
          (fun acc kv => acc ++ "    " ++ kv.1 ++ "=" ++ renderVal kv.2 ++ "\n")
          (inp ++ "$" ++ se.1 ++ "\n")
        ++ "$end\n") s
      = s ++ sJoin (os.map specBlock) := by
  induction os generalizing s with
  | nil =>
    apply String.ext
    simp [sJoin_data, String.data_append]
  | cons se os ih =>
    rw [List.foldl_cons, ih, inner_fold_eq, List.map_cons, sJoin_cons, specBlock_eq]
    apply String.ext
    simp [String.data_append, List.append_assoc]

theorem format_body (o : XOptions) :
    format_xcontrol o = dedent (pyStrip (sJoin ((sortKey o).map specBlock))) := by
  simp only [format_xcontrol]
  rw [outer_fold_eq]
  have h : ("" : String) ++ sJoin ((sortKey o).map specBlock)
      = sJoin ((sortKey o).map specBlock) := by
    apply String.ext
    simp [String.data_append]
  rw [h]

theorem specBlock_shape (se : String × List (String × XVal)) :
    ∃ m, (specBlock se).data = '$' :: (m ++ ['d', '\n']) := by
  refine ⟨se.1.data ++ '\n' :: (sJoin ((sortKey se.2).map specEntryStr)).data ++ ['$', 'e', 'n'], ?_⟩
  have h1 : ("$" : String).data = ['$'] := rfl
  have h2 : ("\n" : String).data = ['\n'] := rfl
  have h3 : ("$end\n" : String).data = ['$', 'e', 'n', 'd', '\n'] := rfl
  simp [specBlock, String.data_append, h1, h2, h3, List.append_assoc]

theorem blocks_shape :
    ∀ l : List (String × List (String × XVal)), l ≠ [] →
      ∃ m, (sJoin (l.map specBlock)).data = '$' :: (m ++ ['d', '\n']) := by
  intro l
  induction l with
  | nil => intro h; exact absurd rfl h
  | cons se rest ih =>
    intro _
    rcases specBlock_shape se with ⟨mb, hmb⟩
    cases rest with
    | nil =>
      refine ⟨mb, ?_⟩
      rw [List.map_cons, List.map_nil, sJoin_cons, String.data_append, hmb]
      simp [sJoin_data]
    | cons se2 rest2 =>
      rcases ih (by simp) with ⟨mr, hmr⟩
      refine ⟨mb ++ ['d', '\n', '$'] ++ mr, ?_⟩
      rw [List.map_cons, sJoin_cons, String.data_append, hmb, hmr]
      simp [List.append_assoc]

theorem pyStrip_shape (m : List Char) :
    pyStrip (String.mk ('$' :: (m ++ ['d', '\n']))) = String.mk ('$' :: (m ++ ['d'])) := by
  have hS : ('$' : Char).isWhitespace = false := rfl
  have hd : ('d' : Char).isWhitespace = false := rfl
  have hn : ('\n' : Char).isWhitespace = true := rfl
  unfold pyStrip
  congr 1
  rw [List.dropWhile_cons, hS]
  simp only [Bool.false_eq_true, if_false]
  have hrev : ('$' :: (m ++ ['d', '\n'])).reverse = '\n' :: 'd' :: (m.reverse ++ ['$']) := by
    simp
  rw [hrev]
  simp [List.dropWhile_cons, hn, hd]

theorem stripTrailingNl_shape (m : List Char) :
    stripTrailingNl (String.mk ('$' :: (m ++ ['d', '\n']))) = String.mk ('$' :: (m ++ ['d'])) := by
  unfold stripTrailingNl
  have hrev : (String.mk ('$' :: (m ++ ['d', '\n']))).data.reverse
      = '\n' :: ('d' :: (m.reverse ++ ['$'])) := by
    simp
  rw [hrev]
  simp

theorem splitNl_ne_nil : ∀ l : List Char, splitNl l ≠ [] := by
  intro l
  induction l with
  | nil => simp [splitNl]
  | cons c cs ih =>
    simp only [splitNl]
    split_ifs with h
    · simp
    · rcases hsp : splitNl cs with _ | ⟨t, ts⟩
      · exact absurd hsp ih
      · simp [hsp]

theorem splitNl_cons_head (rest : List Char) :
    ∃ t ts, splitNl ('$' :: rest) = ('$' :: t) :: ts := by
  rcases hr : splitNl rest with _ | ⟨t, ts⟩
  · exact absurd hr (splitNl_ne_nil rest)
  · exact ⟨t, ts, by simp [splitNl, hr]⟩

theorem margin_foldl_nil :
    ∀ ls : List (List Char),
      ls.foldl
        (fun m line =>
          if (line.dropWhile Char.isWhitespace).isEmpty then m
          else
            match m with
            | none => some (line.takeWhile Char.isWhitespace)
            | some mm => some (lcp mm (line.takeWhile Char.isWhitespace)))
        (some []) = some [] := by
  intro ls
  induction ls with
  | nil => rfl
  | cons line ls ih =>
    simp only [List.foldl_cons]
    by_cases h : (line.dropWhile Char.isWhitespace).isEmpty
    · simpa [h] using ih
    · simpa [h, lcp] using ih

theorem marginOf_dollar (t : List Char) (ts : List (List Char)) :
    marginOf (('$' :: t) :: ts) = some [] := by
  have hS : ('$' : Char).isWhitespace = false := rfl
  have h : ¬ (('$' :: t).dropWhile Char.isWhitespace).isEmpty = true := by
    rw [List.dropWhile_cons, hS]
    simp
  have h2 : ('$' :: t).takeWhile Char.isWhitespace = [] := by
    rw [List.takeWhile_cons, hS]
    simp
  unfold marginOf
  simp only [List.foldl_cons, h, h2]
  simpa [h, h2] using margin_foldl_nil ts

theorem dedent_dollar (s : String) (rest : List Char) (h : s.data = '$' :: rest) :
    dedent s = s := by
  unfold dedent
  rw [h]
  rcases splitNl_cons_head rest with ⟨t, ts, hsp⟩
  rw [hsp, marginOf_dollar]

theorem sorted_keyLt_of_nodup {β : Type} {l : List (String × β)} (hs : List.Sorted keyLe l)
    (hn : (l.map Prod.fst).Nodup) : List.Sorted keyLt l := by
  have hne : l.Pairwise (fun a b => Prod.fst a ≠ Prod.fst b) := List.pairwise_map.mp hn
  exact (List.Pairwise.and hs hne).imp (fun h => lt_of_le_of_ne h.1 h.2)

theorem sortKey_eq_of_perm {β : Type} {l₁ l₂ : List (String × β)} (hperm : l₁.Perm l₂)
    (hn : (l₁.map Prod.fst).Nodup) : sortKey l₁ = sortKey l₂ := by
  have hn₁ : ((sortKey l₁).map Prod.fst).Nodup :=
    (((List.perm_insertionSort keyLe l₁).map Prod.fst).nodup_iff).mpr hn
  have hn₂ : ((sortKey l₂).map Prod.fst).Nodup := by
    have h := (hperm.map Prod.fst).nodup_iff.mp hn
    exact (((List.perm_insertionSort keyLe l₂).map Prod.fst).nodup_iff).mpr h
  have hp : (sortKey l₁).Perm (sortKey l₂) :=
    ((List.perm_insertionSort keyLe l₁).trans hperm).trans
      (List.perm_insertionSort keyLe l₂).symm
  exact List.eq_of_perm_of_sorted hp
    (sorted_keyLt_of_nodup (List.sorted_insertionSort keyLe l₁) hn₁)
    (sorted_keyLt_of_nodup (List.sorted_insertionSort keyLe l₂) hn₂)

theorem orderedInsert_forall₂ {a b : String × List (String × XVal)} (hab : EntryPerm a b) :
    ∀ {l₁ l₂ : List (String × List (String × XVal))}, List.Forall₂ EntryPerm l₁ l₂ →
      List.Forall₂ EntryPerm (List.orderedInsert keyLe a l₁) (List.orderedInsert keyLe b l₂) := by
  intro l₁ l₂ h
  induction h with
  | nil => exact List.Forall₂.cons hab List.Forall₂.nil
  | @cons x y xs ys hxy hrest ih =>
    by_cases hle : keyLe a x
    · have hle' : keyLe b y := by
        unfold keyLe at *
        rw [← hab.1, ← hxy.1]
        exact hle
      simp only [List.orderedInsert]
      rw [if_pos hle, if_pos hle']
      exact List.Forall₂.cons hab (List.Forall₂.cons hxy hrest)
    · have hle' : ¬ keyLe b y := by
        unfold keyLe at *
        rw [← hab.1, ← hxy.1]
        exact hle
      simp only [List.orderedInsert]
      rw [if_neg hle, if_neg hle']
      exact List.Forall₂.cons hxy ih

theorem sortKey_forall₂ {l₁ l₂ : List (String × List (String × XVal))}
    (h : List.Forall₂ EntryPerm l₁ l₂) :
    List.Forall₂ EntryPerm (sortKey l₁) (sortKey l₂) := by
  induction h with
  | nil => exact List.Forall₂.nil
  | @cons x y xs ys hxy hrest ih =>
    simp only [sortKey, List.insertionSort] at ih ⊢
    exact orderedInsert_forall₂ hxy ih

theorem map_specBlock_eq {l₁ l₂ : List (String × List (String × XVal))}
    (h : List.Forall₂ EntryPerm l₁ l₂)
    (hnd : ∀ se ∈ l₂, (se.2.map Prod.fst).Nodup) :
    l₁.map specBlock = l₂.map specBlock := by
  induction h with
  | nil => rfl
  | @cons x y xs ys hxy hrest ih =>
    have hy : (y.2.map Prod.fst).Nodup := hnd y (by simp)
    have hx : (x.2.map Prod.fst).Nodup := ((hxy.2.map Prod.fst).nodup_iff).mpr hy
    have hsort : sortKey x.2 = sortKey y.2 := sortKey_eq_of_perm hxy.2 hx
    have hblock : specBlock x = specBlock y := by
      unfold specBlock
      rw [hxy.1, hsort]
    rw [List.map_cons, List.map_cons, hblock, ih (fun se hse => hnd se (by simp [hse]))]

theorem format_eq_specRender (o : XOptions) : format_xcontrol o = specRender o := by
  rw [format_body]
  unfold specRender
  by_cases h : sortKey o = []
  · rw [h]
    rfl
  · rcases blocks_shape (sortKey o) h with ⟨m, hm⟩
    have hx : sJoin ((sortKey o).map specBlock) = String.mk ('$' :: (m ++ ['d', '\n'])) :=
      String.ext hm
    rw [hx, pyStrip_shape, stripTrailingNl_shape]
    exact dedent_dollar _ (m ++ ['d']) rfl

/-- Claim C3: control-file rendering is deterministic and
order-independent — two option mappings containing the same sections
and entries render to byte-identical text — and the rendered text is
exactly the specification form: sections in ascending alphabetical
order opening with a dollar-prefixed name and closing with $end, each
entry as key=value with booleans rendered lowercase and keys in
ascending alphabetical order. -/
theorem C3_format_xcontrol :
    (∀ o₁ o₂ : XOptions, (o₁.map Prod.fst).Nodup →
        (∀ se ∈ o₂, (se.2.map Prod.fst).Nodup) → SameOptions o₁ o₂ →
        format_xcontrol o₁ = format_xcontrol o₂)
    ∧ (∀ o : XOptions, format_xcontrol o = specRender o) := by
  constructor
  · intro o₁ o₂ hnd₁ hnd₂ hsame
    rcases hsame with ⟨o, hperm, hf⟩
    rw [format_body, format_body]
    have e1 : sortKey o₁ = sortKey o := sortKey_eq_of_perm hperm hnd₁
    have hf' : List.Forall₂ EntryPerm (sortKey o) (sortKey o₂) := sortKey_forall₂ hf
    have e2 : (sortKey o).map specBlock = (sortKey o₂).map specBlock :=
      map_specBlock_eq hf'
        (fun se hse => hnd₂ se (by simpa [sortKey, List.mem_insertionSort] using hse))
    rw [e1, e2]
  · exact format_eq_specRender

theorem C3_witness : format_xcontrol o1ex = format_xcontrol o2ex := by
  refine C3_format_xcontrol.1 o1ex o2ex (by decide) (by decide) ⟨oMidEx, ?_, ?_⟩
  · exact List.Perm.swap _ _ []
  · refine List.Forall₂.cons ⟨rfl, List.Perm.refl _⟩ ?_
    refine List.Forall₂.cons ⟨rfl, List.Perm.swap _ _ []⟩ List.Forall₂.nil

end XTBV
